import Mathlib

/-!
Shallow embedding of the patch-conflict-fixer service (src/src/index.ts).

The program reacts to push events on release branches, probes open pull
requests for a "dirty" mergeability state, and repairs dirty pull requests
by cloning, merging base into head locally, pushing the merge to a
temporary remote branch, re-creating the merge commit through the hosting
API with the CI-skip marker stripped from its message, fast-forwarding the
pull request's head ref to the new commit, and deleting the temporary
branch.

External effects (git subprocess, hosting API, filesystem, timers) are
embedded as explicit state (`World`, `Remote`) plus an oracle (`MergeEnv`)
that fixes the outcome of each fallible external call; every external call
that the code issues is also recorded in an action trace so that theorems
can speak about which effects were attempted and in which order.
-/

/-- Errors raised by external calls (network, git, API); the payload is an
opaque description, mirroring a JavaScript exception value. -/
abbrev Err := String

/-- Embedding of JavaScript `String.prototype.toLowerCase` as a per-character
map (the branch names involved are ASCII, where the two agree). -/
def toLowerStr (s : String) : String := ⟨s.data.map Char.toLower⟩

/-- Tests whether `pat` occurs at the head of `l` (character lists). -/
def startsList : List Char → List Char → Bool
  | [], _ => true
  | _ :: _, [] => false
  | p :: ps, c :: cs => p == c && startsList ps cs

/-- Tests whether `pat` occurs contiguously anywhere inside `l`. -/
def subList (pat : List Char) : List Char → Bool
  | [] => startsList pat []
  | c :: cs => startsList pat (c :: cs) || subList pat cs

/-- Embedding of `message.replace(/^\x5bci skip\x5d /g, '')` from the
republish step: the pattern is anchored at the start of the string (no
multiline flag), so it removes at most one leading occurrence of the
marker-plus-space. -/
def stripCiSkip (s : String) : String :=
  if startsList "[ci skip] ".toList s.toList then
    ⟨s.toList.drop "[ci skip] ".length⟩
  else s

/-- Whether a commit message contains the CI-skip marker `[ci skip]`. -/
def containsCiSkipMarker (msg : String) : Bool :=
  subList "[ci skip]".toList msg.toList

/-- Pull-request data as returned by the status fetch (`pulls.get`): the
fields of the response that the program reads. `mergeable_state` is the
hosting service's mergeability classification (a string such as
"unknown", "clean", "dirty", "blocked"). -/
structure PullData where
  number : Nat
  mergeable_state : String
  baseRef : String
  headRef : String
deriving Repr, DecidableEq

/-- Events produced by the mergeability prober: a status fetch for a given
attempt index, or a timer wait of the given number of milliseconds. -/
inductive PEvent where
  | fetchStatus (attempt : Nat)
  | sleep (ms : Nat)
deriving Repr, DecidableEq

/-- Boolean discriminator for fetch events in a prober trace. -/
def isFetch : PEvent → Bool
  | .fetchStatus _ => true
  | .sleep _ => false

/-- Loop body of `getPRWithMergability`: `attempt` is the current loop index
and `fuel` the number of remaining iterations (`3 - attempt`). Each
iteration fetches the pull request (`fetch attempt`, which may throw);
a non-"unknown" classification is returned immediately, otherwise the
code sleeps 5000 ms and retries. Exhausted fuel yields `none`. -/
def probeAux (fetch : Nat → Except Err PullData) :
    Nat → Nat → List PEvent × Except Err (Option PullData)
  | _, 0 => ([], .ok none)
  | attempt, fuel + 1 =>
    match fetch attempt with
    | .error e => ([.fetchStatus attempt], .error e)
    | .ok pull =>
      if pull.mergeable_state ≠ "unknown" then
        ([.fetchStatus attempt], .ok (some pull))
      else
        let rest := probeAux fetch (attempt + 1) fuel
        (.fetchStatus attempt :: .sleep 5000 :: rest.1, rest.2)

/-- Embedding of `getPRWithMergability` (src/src/index.ts:10-26): up to 3
status fetches with a 5000 ms sleep after each "unknown" answer; returns
the first authoritative pull data, or `none` after 3 "unknown" answers.
The `fetch` oracle gives the outcome of the i-th `pulls.get` call. The
first component is the trace of fetch and sleep events. -/
def getPRWithMergability (fetch : Nat → Except Err PullData) :
    List PEvent × Except Err (Option PullData) :=
  probeAux fetch 0 3

/-- Embedding of the discovery-queue task body (src/src/index.ts:87-100,
207-210): run the prober inside a try/catch; a repair task is pushed onto
the merge queue exactly when the prober produced pull data whose
classification is "dirty". Returns whether a repair task was enqueued. -/
def mergabilityTask (fetch : Nat → Except Err PullData) : Bool :=
  match (getPRWithMergability fetch).2 with
  | .error _ => false
  | .ok none => false
  | .ok (some p) => p.mergeable_state == "dirty"

/-- Summary of an open pull request as produced by the paginated
`pulls.list` call: the fields the push handler reads before probing.
`headRepoOwner` is `pr.head.repo.owner?.login` (absent owner gives
`none`, which the strict inequality against the event owner treats as a
mismatch). -/
structure PRSummary where
  number : Nat
  headRef : String
  headRepoOwner : Option String
  headRepoName : String
deriving Repr, DecidableEq

/-- Embedding of the JavaScript regular expression test
`/^[0-9]+-x-y$/.test(branch)`: the branch must be one or more ASCII
digits followed by exactly "-x-y" (case-sensitive; since '-' is not a
digit, the greedy digit run is the maximal leading digit run). -/
def releaseLineTest (branch : String) : Bool :=
  let cs := branch.toList
  decide ((cs.takeWhile Char.isDigit).length > 0) &&
    (cs.dropWhile Char.isDigit == "-x-y".toList)

/-- Embedding of the push-handler gate and fork filter
(src/src/index.ts:58-85): the handler lists open pull requests only when
the pushed ref starts with "refs/heads/" and its short name is "main" or
matches the release-line pattern; among the listed pull requests, probe
tasks are enqueued exactly for those whose head repository owner and
name equal the event repository's. Returns (whether `pulls.list` was
called, the pull requests for which a probe task was enqueued). -/
def pushHandler (ref owner repo : String) (openPRs : List PRSummary) :
    Bool × List PRSummary :=
  if startsList "refs/heads/".toList ref.toList then
    let branch := ref.drop "refs/heads/".length
    if branch == "main" || releaseLineTest branch then
      (true, openPRs.filter
        (fun pr => pr.headRepoOwner == some owner && pr.headRepoName == repo))
    else (false, [])
  else (false, [])

/-- Pull requests of one push event for which a repair task is enqueued:
those probed by the push handler whose discovery task got a "dirty"
classification from the prober. `fetchOf pr` is the status-fetch oracle
for pull request `pr`. -/
def scheduledRepairs (ref owner repo : String) (openPRs : List PRSummary)
    (fetchOf : PRSummary → Nat → Except Err PullData) : List PRSummary :=
  (pushHandler ref owner repo openPRs).2.filter (fun pr => mergabilityTask (fetchOf pr))

/-- Commit object as held by the hosting service: id, message, tree id,
and parent ids. -/
structure Commit where
  sha : String
  message : String
  tree : String
  parents : List String
deriving Repr, DecidableEq

/-- Remote repository state on the hosting service: branch refs (an
association list from ref name, for example "heads/x", to commit id;
the head entry shadows older ones) and the store of commit objects. -/
structure Remote where
  refs : List (String × String)
  commits : List Commit
deriving Repr, DecidableEq

/-- Resolves a ref name on the remote (newest binding wins). -/
def lookupRef : List (String × String) → String → Option String
  | [], _ => none
  | (k, v) :: rest, r => if k == r then some v else lookupRef rest r

/-- Fetches a commit object by id from the remote store (newest wins). -/
def findCommit : List Commit → String → Option Commit
  | [], _ => none
  | c :: rest, sha => if c.sha == sha then some c else findCommit rest sha

/-- Embedding of the hosting API `git.deleteRef`: removes every binding of
the given ref name. -/
def Remote.dropRef (r : Remote) (ref : String) : Remote :=
  { r with refs := r.refs.filter (fun p => p.1 != ref) }

/-- External calls issued by one repair task, in issue order. Local
filesystem operations, git subprocess operations, and hosting API calls
are all recorded. -/
inductive ExtAction where
  | mkdirp (p : String)
  | rmLocal (p : String)
  | getToken
  | clone (p : String)
  | addConfig (k v : String)
  | checkout (b : String)
  | gitMerge (base msg : String)
  | checkoutNewBranch (b : String)
  | pushBranch (b : String)
  | apiGetRef (ref : String)
  | apiGetCommit (sha : String)
  | apiCreateCommit (message tree : String) (parents : List String)
  | apiUpdateRef (ref sha : String)
  | apiDeleteRef (ref : String)
deriving Repr, DecidableEq

/-- World state threaded through one repair task: the local filesystem
(a list of existing paths), the remote repository, the trace of external
calls issued so far, and the task's `tempBranchName` variable (the
mutable `let tempBranchName: string = ''` of the merge-queue task,
which the cleanup phase reads). -/
structure World where
  fs : List String
  remote : Remote
  trace : List ExtAction
  tempBranchName : String
deriving Repr, DecidableEq

/-- Whether path `p` is the directory `dir` itself or lies underneath it. -/
def underDir (dir p : String) : Bool :=
  p == dir || startsList (dir ++ "/").toList p.toList

/-- Recursive removal (`fs.remove`): deletes the path itself and everything
below it. -/
def removeRec (dir : String) (fs : List String) : List String :=
  fs.filter (fun p => !underDir dir p)

/-- Embedding of `withTempDir` (src/src/index.ts:28-37): create a fresh
temporary directory, run `fn` on it inside try/catch/finally; the
`finally` removes the directory recursively on both the normal and the
error path, and the `catch (err) \x7b throw err \x7d` re-raises the same
error, so `fn`'s outcome is returned unmodified after the removal. The
fresh directory name produced by `fs.mkdtemp` is the `dir` argument. -/
def withTempDir (dir : String)
    (fn : String → World → World × Except Err Unit) (w : World) :
    World × Except Err Unit :=
  let w1 := { w with fs := dir :: w.fs }
  match fn dir w1 with
  | (w2, .ok u) => ({ w2 with fs := removeRec dir w2.fs }, .ok u)
  | (w2, .error e) => ({ w2 with fs := removeRec dir w2.fs }, .error e)

/-- Temporary remote branch name chosen by the repair task:
`patch-conflict-fix/<head-ref>/<Date.now()>` lower-cased. -/
def tempBranchNameOf (headRef : String) (now : Nat) : String :=
  toLowerStr ("patch-conflict-fix/" ++ headRef ++ "/" ++ toString now)

/-- Oracle fixing the outcome of every fallible external call made by one
repair task, together with the values the environment produces: the
fresh temporary directory name, the clock value `Date.now()`, the
tree/parents/id of the local merge commit produced by `git merge` on
success, and the id the hosting API assigns to the re-created commit. -/
structure MergeEnv where
  tmpDir : String
  now : Nat
  tokenRes : Except Err String
  cloneRes : Except Err Unit
  cfgEmailRes : Except Err Unit
  cfgNameRes : Except Err Unit
  cfgSignRes : Except Err Unit
  checkoutBaseRes : Except Err Unit
  checkoutHeadRes : Except Err Unit
  mergeRes : Except Err Unit
  mergeSha : String
  mergeTree : String
  mergeParents : List String
  checkoutTempRes : Except Err Unit
  pushRes : Except Err Unit
  getRefErr : Option Err
  getCommitErr : Option Err
  createErr : Option Err
  updateErr : Option Err
  newSha : String
  deleteErr : Option Err
deriving Repr

/-- The local merge commit message written by the repair task
(src/src/index.ts:138-139). -/
def mergeMessageOf (baseRef : String) : String :=
  "[ci skip] Merged in branch '" ++ baseRef ++ "' to fix mergability"

/-- Embedding of the function passed to `withTempDir` by the merge-queue
task (src/src/index.ts:103-192), step by step in source order: prepare
the clone directory, obtain a token, clone, set the bot git identity,
check out base then head, attempt `git merge` (any failure is caught and
recorded only as `result = 'failed'`), and on merge failure return
normally. On merge success: assign `tempBranchName`, create and push the
temporary branch (the push publishes the local merge commit and its
branch ref to the remote), then `getRef`/`getCommit`/`createCommit` (the
re-created commit reuses the fetched tree and parents, with the CI-skip
marker stripped from the message)/`updateRef` on the pull request's head
ref. The first failing step aborts with its error. -/
def repairFnBody (env : MergeEnv) (pr : PullData) :
    String → World → World × Except Err Unit := fun dir w0 =>
  let clonePath := dir ++ "/clone"
  let w := { w0 with fs := clonePath :: w0.fs, trace := w0.trace ++ [ExtAction.mkdirp clonePath] }
  let w := { w with fs := removeRec clonePath w.fs, trace := w.trace ++ [ExtAction.rmLocal clonePath] }
  let w := { w with fs := clonePath :: w.fs, trace := w.trace ++ [ExtAction.mkdirp clonePath] }
  let w := { w with trace := w.trace ++ [ExtAction.getToken] }
  match env.tokenRes with
  | .error e => (w, .error e)
  | .ok _token =>
  let w := { w with trace := w.trace ++ [ExtAction.clone clonePath] }
  match env.cloneRes with
  | .error e => (w, .error e)
  | .ok _ =>
  let w := { w with trace := w.trace ++ [ExtAction.addConfig "user.email" "electron@github.com"] }
  match env.cfgEmailRes with
  | .error e => (w, .error e)
  | .ok _ =>
  let w := { w with trace := w.trace ++ [ExtAction.addConfig "user.name" "Electron Bot"] }
  match env.cfgNameRes with
  | .error e => (w, .error e)
  | .ok _ =>
  let w := { w with trace := w.trace ++ [ExtAction.addConfig "commit.gpgsign" "false"] }
  match env.cfgSignRes with
  | .error e => (w, .error e)
  | .ok _ =>
  let w := { w with trace := w.trace ++ [ExtAction.checkout pr.baseRef] }
  match env.checkoutBaseRes with
  | .error e => (w, .error e)
  | .ok _ =>
  let w := { w with trace := w.trace ++ [ExtAction.checkout pr.headRef] }
  match env.checkoutHeadRes with
  | .error e => (w, .error e)
  | .ok _ =>
  let mergeMsg := mergeMessageOf pr.baseRef
  let w := { w with trace := w.trace ++ [ExtAction.gitMerge pr.baseRef mergeMsg] }
  let result := match env.mergeRes with
    | .ok _ => "success"
    | .error _ => "failed"
  if result ≠ "success" then (w, .ok ()) else
  let tempName := tempBranchNameOf pr.headRef env.now
  let w := { w with tempBranchName := tempName }
  let w := { w with trace := w.trace ++ [ExtAction.checkoutNewBranch tempName] }
  match env.checkoutTempRes with
  | .error e => (w, .error e)
  | .ok _ =>
  let mergedCommit : Commit :=
    { sha := env.mergeSha, message := mergeMsg,
      tree := env.mergeTree, parents := env.mergeParents }
  let w := { w with trace := w.trace ++ [ExtAction.pushBranch tempName] }
  match env.pushRes with
  | .error e => (w, .error e)
  | .ok _ =>
  let w := { w with remote :=
    { refs := ("heads/" ++ tempName, env.mergeSha) :: w.remote.refs,
      commits := mergedCommit :: w.remote.commits } }
  let w := { w with trace := w.trace ++ [ExtAction.apiGetRef ("heads/" ++ tempName)] }
  match env.getRefErr with
  | some e => (w, .error e)
  | none =>
  match lookupRef w.remote.refs ("heads/" ++ tempName) with
  | none => (w, .error "ref not found")
  | some refSha =>
  let w := { w with trace := w.trace ++ [ExtAction.apiGetCommit refSha] }
  match env.getCommitErr with
  | some e => (w, .error e)
  | none =>
  match findCommit w.remote.commits refSha with
  | none => (w, .error "commit not found")
  | some commit =>
  let newMessage := stripCiSkip commit.message
  let w := { w with trace :=
    w.trace ++ [ExtAction.apiCreateCommit newMessage commit.tree commit.parents] }
  match env.createErr with
  | some e => (w, .error e)
  | none =>
  let newCommit : Commit :=
    { sha := env.newSha, message := newMessage,
      tree := commit.tree, parents := commit.parents }
  let w := { w with remote := { w.remote with commits := newCommit :: w.remote.commits } }
  let w := { w with trace := w.trace ++ [ExtAction.apiUpdateRef ("heads/" ++ pr.headRef) env.newSha] }
  match env.updateErr with
  | some e => (w, .error e)
  | none =>
  let w := { w with remote :=
    { w.remote with refs := ("heads/" ++ pr.headRef, env.newSha) :: w.remote.refs } }
  (w, .ok ())

/-- Embedding of the whole merge-queue task (src/src/index.ts:100-205):
initialise `tempBranchName` to the empty string, run the repair body
inside `withTempDir` under a try/catch that logs and swallows any error,
and in the `finally` attempt `git.deleteRef` on the temporary branch
whenever a name was assigned, with the delete's own failure swallowed by
`.catch(() => \x7b\x7d)`. The task itself always completes normally. -/
def runRepairTask (env : MergeEnv) (pr : PullData) (w : World) :
    World × Except Err Unit :=
  let w0 := { w with tempBranchName := "" }
  let r1 := withTempDir env.tmpDir (repairFnBody env pr) w0
  let w1 := r1.1
  if w1.tempBranchName ≠ "" then
    let w2 := { w1 with trace := w1.trace ++ [ExtAction.apiDeleteRef ("heads/" ++ w1.tempBranchName)] }
    match env.deleteErr with
    | some _ => (w2, .ok ())
    | none => ({ w2 with remote := w2.remote.dropRef ("heads/" ++ w1.tempBranchName) }, .ok ())
  else (w1, .ok ())

/-- State of one bounded-concurrency task queue. Modelled from the spec:
the `queue` package is an external dependency (not under src/), so its
behaviour — run at most `concurrency` tasks at once, holding the rest in
an unbounded backlog — is taken from the spec's description of the
Dual-Stage Scheduler; the concurrency constants 4 and 3 are from
src/src/index.ts:47-55. -/
structure TaskQueue where
  concurrency : Nat
  running : Nat
  pending : Nat
deriving Repr, DecidableEq

/-- Transitions of one bounded-concurrency queue. Modelled from the spec:
a task may be pushed onto the backlog at any time; a pending task starts
only while fewer than `concurrency` tasks run; a running task may
finish. -/
inductive QueueStep : TaskQueue → TaskQueue → Prop where
  | push (q : TaskQueue) :
      QueueStep q { q with pending := q.pending + 1 }
  | start (q : TaskQueue) (h : q.running < q.concurrency) (hp : 0 < q.pending) :
      QueueStep q { q with running := q.running + 1, pending := q.pending - 1 }
  | finish (q : TaskQueue) (h : 0 < q.running) :
      QueueStep q { q with running := q.running - 1 }

/-- The scheduler's state: the discovery queue (`mergabilityQueue`) and the
repair queue (`mergeQueue`). -/
structure Scheduler where
  mergabilityQueue : TaskQueue
  mergeQueue : TaskQueue
deriving Repr, DecidableEq

/-- Scheduler transitions: either queue steps independently; a step of one
queue leaves the other untouched. -/
inductive SchedStep : Scheduler → Scheduler → Prop where
  | discovery (s : Scheduler) (q : TaskQueue) (h : QueueStep s.mergabilityQueue q) :
      SchedStep s { s with mergabilityQueue := q }
  | repair (s : Scheduler) (q : TaskQueue) (h : QueueStep s.mergeQueue q) :
      SchedStep s { s with mergeQueue := q }

/-- Initial scheduler state (src/src/index.ts:47-55): discovery concurrency
4, repair concurrency 3, nothing queued or running. -/
def initScheduler : Scheduler :=
  { mergabilityQueue := { concurrency := 4, running := 0, pending := 0 },
    mergeQueue := { concurrency := 3, running := 0, pending := 0 } }

/-- Status-fetch oracle answering "dirty" at once (used as a concrete
instance for the probing theorems). -/
def fetchDirtyEx : Nat → Except Err PullData := fun _ =>
  .ok { number := 7, mergeable_state := "dirty", baseRef := "main", headRef := "fix" }

/-- A workspace body that creates a file under the temporary directory and
then raises (used as a concrete instance for the workspace theorems). -/
def fnLeakEx : String → World → World × Except Err Unit := fun d w =>
  ({ w with fs := (d ++ "/junk") :: w.fs }, .error "boom")

/-- A world holding one unrelated path (concrete instance). -/
def wKeepEx : World :=
  { fs := ["keep"], remote := { refs := [], commits := [] }, trace := [],
    tempBranchName := "" }

/-- A same-repository open pull request (concrete instance). -/
def prSummaryEx : PRSummary :=
  { number := 7, headRef := "fix", headRepoOwner := some "electron",
    headRepoName := "electron" }

/-- An open pull request from a fork (concrete instance). -/
def prForkEx : PRSummary :=
  { number := 8, headRef := "f", headRepoOwner := some "forker",
    headRepoName := "electron" }

/-- An oracle under which every external call of the repair task succeeds
(concrete instance for the repair-task theorems). -/
def envOkEx : MergeEnv :=
  { tmpDir := "/tmp/patch-merge-abc", now := 55,
    tokenRes := .ok "tok", cloneRes := .ok (), cfgEmailRes := .ok (),
    cfgNameRes := .ok (), cfgSignRes := .ok (), checkoutBaseRes := .ok (),
    checkoutHeadRes := .ok (), mergeRes := .ok (), mergeSha := "msha",
    mergeTree := "mtree", mergeParents := ["p1", "p2"],
    checkoutTempRes := .ok (), pushRes := .ok (), getRefErr := none,
    getCommitErr := none, createErr := none, updateErr := none,
    newSha := "nsha", deleteErr := none }

/-- A dirty pull request as seen by the repair task (concrete instance). -/
def prDataEx : PullData :=
  { number := 7, mergeable_state := "dirty", baseRef := "main", headRef := "fix" }

/-- Initial world for a repair attempt: the head branch exists remotely at
an old commit (concrete instance). -/
def wInitEx : World :=
  { fs := [], remote := { refs := [("heads/fix", "oldsha")], commits := [] },
    trace := [], tempBranchName := "" }

/-- At least one 5000 ms sleep separates any two status fetches in a prober
trace (the spacing property of the prober's event trace). -/
def proberSpaced (t : List PEvent) : Prop :=
  ∀ i j : Nat, i < j →
    (∃ a, t.get? i = some (PEvent.fetchStatus a)) →
    (∃ b, t.get? j = some (PEvent.fetchStatus b)) →
    ∃ k, i < k ∧ k < j ∧ t.get? k = some (PEvent.sleep 5000)

theorem length_toLowerStr (s : String) : (toLowerStr s).length = s.length := by
  show (s.data.map Char.toLower).length = s.data.length
  simp

theorem tempBranchNameOf_ne_empty (h : String) (n : Nat) :
    tempBranchNameOf h n ≠ "" := by
  intro heq
  have hl := congrArg String.length heq
  rw [tempBranchNameOf, length_toLowerStr] at hl
  have h19 : ("patch-conflict-fix/" : String).length = 19 := rfl
  simp [String.length_append, h19] at hl

theorem tempBranchNameOf_ne_headRef (h : String) (n : Nat) :
    tempBranchNameOf h n ≠ h := by
  intro heq
  have hl := congrArg String.length heq
  rw [tempBranchNameOf, length_toLowerStr] at hl
  have h1 : ("/" : String).length = 1 := rfl
  have h19 : ("patch-conflict-fix/" : String).length = 19 := rfl
  simp [String.length_append, h1, h19] at hl
  omega

theorem heads_append_ne (a b : String) (hne : a ≠ b) :
    ("heads/" ++ a) ≠ ("heads/" ++ b) := by
  intro heq
  apply hne
  apply String.ext
  have := congrArg String.data heq
  simpa [String.data_append] using this

theorem mem_removeRec (dir p : String) (fs : List String)
    (hp : p ∈ removeRec dir fs) : underDir dir p = false := by
  unfold removeRec at hp
  have := (List.mem_filter.mp hp).2
  simpa using this

/-- C3: for every invocation of the workspace scope `withTempDir` with any
body `fn`, the temporary directory (and everything under it) is absent
from the filesystem after the call on every exit path — whether `fn`
returns normally or raises — and the call's outcome (in particular any
error raised by `fn`) is exactly `fn`'s outcome, propagated unmodified
after the removal. -/
theorem withTempDir_cleanup_and_propagation (dir : String)
    (fn : String → World → World × Except Err Unit) (w : World) :
    (∀ p, p ∈ (withTempDir dir fn w).1.fs → underDir dir p = false) ∧
    (withTempDir dir fn w).2 = (fn dir { w with fs := dir :: w.fs }).2 := by
  rcases hfn : fn dir { w with fs := dir :: w.fs } with ⟨w2, r⟩
  cases r with
  | ok u =>
    simp only [withTempDir, hfn]
    refine ⟨?_, trivial⟩
    intro p hp
    exact mem_removeRec dir p w2.fs hp
  | error e =>
    simp only [withTempDir, hfn]
    refine ⟨?_, trivial⟩
    intro p hp
    exact mem_removeRec dir p w2.fs hp

/-- C3 witness: a body that creates a file under the directory and raises
"boom"; afterwards the unrelated path "keep" is still present and not
under the directory, and the call returns exactly the error "boom". -/
theorem withTempDir_cleanup_and_propagation_witness :
    underDir "/tmp/patch-merge-abc" "keep" = false ∧
    (withTempDir "/tmp/patch-merge-abc" fnLeakEx wKeepEx).2 = Except.error "boom" := by
  refine ⟨?_, ?_⟩
  · exact (withTempDir_cleanup_and_propagation "/tmp/patch-merge-abc" fnLeakEx wKeepEx).1
      "keep" (by decide)
  · exact ((withTempDir_cleanup_and_propagation "/tmp/patch-merge-abc" fnLeakEx wKeepEx).2).trans rfl

/-- C8: the push handler lists pull requests and schedules probes only when
the pushed ref is a branch ref ("refs/heads/" followed by the branch
name) whose short name is exactly "main" or matches the release-line
pattern `digits-x-y` (case-sensitively); for any other ref the handler
performs no pull-request listing and schedules no probes at all. -/
theorem push_gate_filters_refs (ref owner repo : String) (prs : List PRSummary)
    (h : ¬ (startsList "refs/heads/".toList ref.toList = true ∧
      ((ref.drop "refs/heads/".length == "main") ||
        releaseLineTest (ref.drop "refs/heads/".length)) = true)) :
    pushHandler ref owner repo prs = (false, []) := by
  simp only [pushHandler]
  split
  · next h1 =>
    split
    · next h2 => exact absurd ⟨h1, h2⟩ h
    · rfl
  · rfl

/-- C8 witness: a push to "refs/heads/feature/foo" (not a release branch)
causes no listing and no probe scheduling. -/
theorem push_gate_filters_refs_witness :
    pushHandler "refs/heads/feature/foo" "electron" "electron" [prSummaryEx] = (false, []) :=
  push_gate_filters_refs "refs/heads/feature/foo" "electron" "electron" [prSummaryEx]
    (by decide)

/-- C7: a pull request whose head repository owner or head repository name
differs from the event repository's owner or name (a fork) is never among
the pull requests for which a probe task is scheduled, and never among
those for which a repair task is scheduled. -/
theorem fork_prs_never_probed_or_repaired (ref owner repo : String)
    (prs : List PRSummary) (pr : PRSummary)
    (fetchOf : PRSummary → Nat → Except Err PullData)
    (hfork : pr.headRepoOwner ≠ some owner ∨ pr.headRepoName ≠ repo) :
    pr ∉ (pushHandler ref owner repo prs).2 ∧
    pr ∉ scheduledRepairs ref owner repo prs fetchOf := by
  have hprobe : pr ∉ (pushHandler ref owner repo prs).2 := by
    intro hmem
    simp only [pushHandler] at hmem
    split at hmem
    · split at hmem
      · have hcond := (List.mem_filter.mp hmem).2
        rw [Bool.and_eq_true] at hcond
        rcases hcond with ⟨ho, hn⟩
        rcases hfork with hf | hf
        · exact hf (by simpa using ho)
        · exact hf (by simpa using hn)
      · simp at hmem
    · simp at hmem
  refine ⟨hprobe, ?_⟩
  intro hmem
  exact hprobe (List.mem_of_mem_filter hmem)

/-- C7 witness: on a push to main, a fork pull request (owner "forker"
instead of "electron") is scheduled for neither probing nor repair. -/
theorem fork_prs_never_probed_or_repaired_witness :
    prForkEx ∉ (pushHandler "refs/heads/main" "electron" "electron" [prForkEx, prSummaryEx]).2 ∧
    prForkEx ∉ scheduledRepairs "refs/heads/main" "electron" "electron"
      [prForkEx, prSummaryEx] (fun _ => fetchDirtyEx) :=
  fork_prs_never_probed_or_repaired "refs/heads/main" "electron" "electron"
    [prForkEx, prSummaryEx] prForkEx (fun _ => fetchDirtyEx) (Or.inl (by decide))

theorem mergabilityTask_eq_true_iff (fetch : Nat → Except Err PullData) :
    mergabilityTask fetch = true ↔
      ∃ p, (getPRWithMergability fetch).2 = .ok (some p) ∧
        p.mergeable_state = "dirty" := by
  unfold mergabilityTask
  rcases h : (getPRWithMergability fetch).2 with e | op
  · simp [h]
  · cases op with
    | none => simp [h]
    | some p =>
      simp only [h]
      constructor
      · intro hb
        exact ⟨p, rfl, by simpa using hb⟩
      · rintro ⟨q, hq, hdq⟩
        injection hq with hq1
        injection hq1 with hq2
        subst hq2
        simpa using hdq

/-- C6: for every pull request probed by the push handler, a repair task is
enqueued if and only if the prober returned pull data whose mergeability
classification is "dirty"; for every other classification, and when the
prober returns Unresolved (`none`) or its fetch raises, no repair task is
scheduled. -/
theorem repair_enqueued_iff_dirty (ref owner repo : String)
    (prs : List PRSummary) (pr : PRSummary)
    (fetchOf : PRSummary → Nat → Except Err PullData)
    (hpr : pr ∈ (pushHandler ref owner repo prs).2) :
    pr ∈ scheduledRepairs ref owner repo prs fetchOf ↔
      ∃ p, (getPRWithMergability (fetchOf pr)).2 = .ok (some p) ∧
        p.mergeable_state = "dirty" := by
  unfold scheduledRepairs
  rw [List.mem_filter]
  rw [← mergabilityTask_eq_true_iff (fetchOf pr)]
  constructor
  · rintro ⟨-, hb⟩
    exact hb
  · intro hb
    exact ⟨hpr, hb⟩

/-- C6 witness: on a push to main, the same-repository pull request whose
status fetch immediately answers "dirty" is scheduled for repair. -/
theorem repair_enqueued_iff_dirty_witness :
    prSummaryEx ∈ scheduledRepairs "refs/heads/main" "electron" "electron"
      [prSummaryEx] (fun _ => fetchDirtyEx) ↔
      ∃ p, (getPRWithMergability fetchDirtyEx).2 = .ok (some p) ∧
        p.mergeable_state = "dirty" :=
  repair_enqueued_iff_dirty "refs/heads/main" "electron" "electron"
    [prSummaryEx] prSummaryEx (fun _ => fetchDirtyEx) (by decide)

theorem queueStep_concurrency (q q' : TaskQueue) (h : QueueStep q q') :
    q'.concurrency = q.concurrency ∧
    (q.running ≤ q.concurrency → q'.running ≤ q'.concurrency) := by
  cases h with
  | push => exact ⟨rfl, fun hr => hr⟩
  | start hlt hp => exact ⟨rfl, fun _ => hlt⟩
  | finish hr => exact ⟨rfl, fun hle => by simp only [TaskQueue.mk.injEq]; omega⟩

theorem sched_inv (s : Scheduler)
    (h : Relation.ReflTransGen SchedStep initScheduler s) :
    s.mergabilityQueue.concurrency = 4 ∧ s.mergeQueue.concurrency = 3 ∧
    s.mergabilityQueue.running ≤ 4 ∧ s.mergeQueue.running ≤ 3 := by
  induction h with
  | refl => exact ⟨rfl, rfl, by simp [initScheduler], by simp [initScheduler]⟩
  | @tail b c hsteps hstep ih =>
    rcases ih with ⟨hc1, hc2, hr1, hr2⟩
    cases hstep with
    | discovery q hq =>
      rcases queueStep_concurrency _ _ hq with ⟨hcq, hrq⟩
      have hq4 : q.concurrency = 4 := by rw [hcq]; exact hc1
      have hrun : q.running ≤ 4 := by
        have := hrq (by rw [hc1]; exact hr1)
        rw [hq4] at this
        exact this
      exact ⟨hq4, hc2, hrun, hr2⟩
    | repair q hq =>
      rcases queueStep_concurrency _ _ hq with ⟨hcq, hrq⟩
      have hq3 : q.concurrency = 3 := by rw [hcq]; exact hc2
      have hrun : q.running ≤ 3 := by
        have := hrq (by rw [hc2]; exact hr2)
        rw [hq3] at this
        exact this
      exact ⟨hc1, hq3, hr1, hrun⟩

/-- C9: in every scheduler state reachable from the initial state, at most
4 discovery (probe) tasks and at most 3 repair tasks run simultaneously,
and the two queues' budgets are independent: every scheduler transition
changes one queue and leaves the other untouched. -/
theorem queue_concurrency_invariant :
    (∀ s : Scheduler, Relation.ReflTransGen SchedStep initScheduler s →
      s.mergabilityQueue.running ≤ 4 ∧ s.mergeQueue.running ≤ 3) ∧
    (∀ s s' : Scheduler, SchedStep s s' →
      s'.mergabilityQueue = s.mergabilityQueue ∨ s'.mergeQueue = s.mergeQueue) := by
  constructor
  · intro s h
    rcases sched_inv s h with ⟨-, -, hr1, hr2⟩
    exact ⟨hr1, hr2⟩
  · intro s s' h
    cases h with
    | discovery q hq => exact Or.inr rfl
    | repair q hq => exact Or.inl rfl

/-- C9 witness: the invariant applied to the initial state (reached by the
empty transition sequence). -/
theorem queue_concurrency_invariant_witness :
    initScheduler.mergabilityQueue.running ≤ 4 ∧ initScheduler.mergeQueue.running ≤ 3 :=
  queue_concurrency_invariant.1 initScheduler Relation.ReflTransGen.refl

theorem spaced_one (a0 : Nat) : proberSpaced [PEvent.fetchStatus a0] := by
  intro i j hij ha hb
  rcases hb with ⟨b, hb⟩
  obtain ⟨hjlt, -⟩ := List.get?_eq_some.mp hb
  simp at hjlt
  omega

theorem spaced_three (a0 a1 : Nat) :
    proberSpaced [PEvent.fetchStatus a0, PEvent.sleep 5000, PEvent.fetchStatus a1] := by
  intro i j hij ha hb
  rcases ha with ⟨a, ha⟩
  rcases hb with ⟨b, hb⟩
  obtain ⟨hjlt, -⟩ := List.get?_eq_some.mp hb
  simp at hjlt
  interval_cases j <;> interval_cases i <;>
    first
      | exact ⟨1, by omega, by omega, rfl⟩
      | (exfalso; simp_all)

theorem spaced_five (a0 a1 a2 : Nat) :
    proberSpaced [PEvent.fetchStatus a0, PEvent.sleep 5000, PEvent.fetchStatus a1,
      PEvent.sleep 5000, PEvent.fetchStatus a2] := by
  intro i j hij ha hb
  rcases ha with ⟨a, ha⟩
  rcases hb with ⟨b, hb⟩
  obtain ⟨hjlt, -⟩ := List.get?_eq_some.mp hb
  simp at hjlt
  interval_cases j <;> interval_cases i <;>
    first
      | exact ⟨1, by omega, by omega, rfl⟩
      | exact ⟨3, by omega, by omega, rfl⟩
      | (exfalso; simp_all)

theorem spaced_six (a0 a1 a2 : Nat) :
    proberSpaced [PEvent.fetchStatus a0, PEvent.sleep 5000, PEvent.fetchStatus a1,
      PEvent.sleep 5000, PEvent.fetchStatus a2, PEvent.sleep 5000] := by
  intro i j hij ha hb
  rcases ha with ⟨a, ha⟩
  rcases hb with ⟨b, hb⟩
  obtain ⟨hjlt, -⟩ := List.get?_eq_some.mp hb
  simp at hjlt
  interval_cases j <;> interval_cases i <;>
    first
      | exact ⟨1, by omega, by omega, rfl⟩
      | exact ⟨3, by omega, by omega, rfl⟩
      | (exfalso; simp_all)

/-- C5: for every pull request, the prober makes at most 3 status fetches,
with a 5000 ms sleep between any two fetches; a non-"unknown" answer is
returned immediately and the prober never returns pull data classified
"unknown"; if all 3 fetches answer "unknown" the prober returns
Unresolved (`none`). -/
theorem prober_bounded_and_spaced (fetch : Nat → Except Err PullData) :
    ((getPRWithMergability fetch).1.filter isFetch).length ≤ 3 ∧
    proberSpaced (getPRWithMergability fetch).1 ∧
    (∀ p, (getPRWithMergability fetch).2 = Except.ok (some p) →
      p.mergeable_state ≠ "unknown") ∧
    ((∀ i, i < 3 → ∃ p, fetch i = Except.ok p ∧ p.mergeable_state = "unknown") →
      (getPRWithMergability fetch).2 = Except.ok none) ∧
    (∀ p, fetch 0 = Except.ok p → p.mergeable_state ≠ "unknown" →
      (getPRWithMergability fetch).2 = Except.ok (some p) ∧
      (getPRWithMergability fetch).1 = [PEvent.fetchStatus 0]) := by
  rcases h0 : fetch 0 with e0 | p0
  · have ht : getPRWithMergability fetch = ([PEvent.fetchStatus 0], Except.error e0) := by
      simp [getPRWithMergability, probeAux, h0]
    rw [ht]
    refine ⟨by simp [isFetch], spaced_one 0, by simp, ?_, ?_⟩
    · intro hall
      exfalso
      rcases hall 0 (by omega) with ⟨p, hp, -⟩
      rw [h0] at hp
      exact absurd hp (by simp)
    · intro p hp
      exact absurd hp (by simp)
  · by_cases hu0 : p0.mergeable_state = "unknown"
    · rcases h1 : fetch 1 with e1 | p1
      · have ht : getPRWithMergability fetch =
            ([PEvent.fetchStatus 0, PEvent.sleep 5000, PEvent.fetchStatus 1],
              Except.error e1) := by
          simp [getPRWithMergability, probeAux, h0, hu0, h1]
        rw [ht]
        refine ⟨by simp [isFetch], spaced_three 0 1, by simp, ?_, ?_⟩
        · intro hall
          exfalso
          rcases hall 1 (by omega) with ⟨p, hp, -⟩
          rw [h1] at hp
          exact absurd hp (by simp)
        · intro p hp hpu
          injection hp with hP
          subst hP
          exact absurd hu0 hpu
      · by_cases hu1 : p1.mergeable_state = "unknown"
        · rcases h2 : fetch 2 with e2 | p2
          · have ht : getPRWithMergability fetch =
                ([PEvent.fetchStatus 0, PEvent.sleep 5000, PEvent.fetchStatus 1,
                  PEvent.sleep 5000, PEvent.fetchStatus 2], Except.error e2) := by
              simp [getPRWithMergability, probeAux, h0, hu0, h1, hu1, h2]
            rw [ht]
            refine ⟨by simp [isFetch], spaced_five 0 1 2, by simp, ?_, ?_⟩
            · intro hall
              exfalso
              rcases hall 2 (by omega) with ⟨p, hp, -⟩
              rw [h2] at hp
              exact absurd hp (by simp)
            · intro p hp hpu
              injection hp with hP
              subst hP
              exact absurd hu0 hpu
          · by_cases hu2 : p2.mergeable_state = "unknown"
            · have ht : getPRWithMergability fetch =
                  ([PEvent.fetchStatus 0, PEvent.sleep 5000, PEvent.fetchStatus 1,
                    PEvent.sleep 5000, PEvent.fetchStatus 2, PEvent.sleep 5000],
                    Except.ok none) := by
                simp [getPRWithMergability, probeAux, h0, hu0, h1, hu1, h2, hu2]
              rw [ht]
              refine ⟨by simp [isFetch], spaced_six 0 1 2, by simp, fun _ => rfl, ?_⟩
              intro p hp hpu
              injection hp with hP
              subst hP
              exact absurd hu0 hpu
            · have ht : getPRWithMergability fetch =
                  ([PEvent.fetchStatus 0, PEvent.sleep 5000, PEvent.fetchStatus 1,
                    PEvent.sleep 5000, PEvent.fetchStatus 2], Except.ok (some p2)) := by
                simp [getPRWithMergability, probeAux, h0, hu0, h1, hu1, h2, hu2]
              rw [ht]
              refine ⟨by simp [isFetch], spaced_five 0 1 2, ?_, ?_, ?_⟩
              · intro p hp
                have hp2 : Except.ok (some p2) = Except.ok (some p) := hp
                injection hp2 with hA
                injection hA with hB
                subst hB
                exact hu2
              · intro hall
                exfalso
                rcases hall 2 (by omega) with ⟨q, hq, hqu⟩
                rw [h2] at hq
                injection hq with hC
                subst hC
                exact hu2 hqu
              · intro p hp hpu
                injection hp with hP
                subst hP
                exact absurd hu0 hpu
        · have ht : getPRWithMergability fetch =
              ([PEvent.fetchStatus 0, PEvent.sleep 5000, PEvent.fetchStatus 1],
                Except.ok (some p1)) := by
            simp [getPRWithMergability, probeAux, h0, hu0, h1, hu1]
          rw [ht]
          refine ⟨by simp [isFetch], spaced_three 0 1, ?_, ?_, ?_⟩
          · intro p hp
            have hp2 : Except.ok (some p1) = Except.ok (some p) := hp
            injection hp2 with hA
            injection hA with hB
            subst hB
            exact hu1
          · intro hall
            exfalso
            rcases hall 1 (by omega) with ⟨q, hq, hqu⟩
            rw [h1] at hq
            injection hq with hC
            subst hC
            exact hu1 hqu
          · intro p hp hpu
            injection hp with hP
            subst hP
            exact absurd hu0 hpu
    · have ht : getPRWithMergability fetch = ([PEvent.fetchStatus 0],
          Except.ok (some p0)) := by
        simp [getPRWithMergability, probeAux, h0, hu0]
      rw [ht]
      refine ⟨by simp [isFetch], spaced_one 0, ?_, ?_, ?_⟩
      · intro p hp
        have hp2 : Except.ok (some p0) = Except.ok (some p) := hp
        injection hp2 with hA
        injection hA with hB
        subst hB
        exact hu0
      · intro hall
        exfalso
        rcases hall 0 (by omega) with ⟨q, hq, hqu⟩
        rw [h0] at hq
        injection hq with hC
        subst hC
        exact hu0 hqu
      · intro p hp hpu
        injection hp with hP
        subst hP
        exact ⟨rfl, rfl⟩

/-- C5 witness: the theorem applied to the oracle that answers "dirty" at
the first fetch. -/
theorem prober_bounded_and_spaced_witness :
    ((getPRWithMergability fetchDirtyEx).1.filter isFetch).length ≤ 3 ∧
    proberSpaced (getPRWithMergability fetchDirtyEx).1 ∧
    (∀ p, (getPRWithMergability fetchDirtyEx).2 = Except.ok (some p) →
      p.mergeable_state ≠ "unknown") ∧
    ((∀ i, i < 3 → ∃ p, fetchDirtyEx i = Except.ok p ∧ p.mergeable_state = "unknown") →
      (getPRWithMergability fetchDirtyEx).2 = Except.ok none) ∧
    (∀ p, fetchDirtyEx 0 = Except.ok p → p.mergeable_state ≠ "unknown" →
      (getPRWithMergability fetchDirtyEx).2 = Except.ok (some p) ∧
      (getPRWithMergability fetchDirtyEx).1 = [PEvent.fetchStatus 0]) :=
  prober_bounded_and_spaced fetchDirtyEx

theorem repairFnBody_push_mem (env : MergeEnv) (pr : PullData) (dir : String)
    (w0 : World) (hw : w0.trace = []) (b : String) (w1 : World)
    (res : Except Err Unit) (hr : repairFnBody env pr dir w0 = (w1, res))
    (hmem : ExtAction.pushBranch b ∈ w1.trace) :
    b = tempBranchNameOf pr.headRef env.now ∧
    w1.tempBranchName = tempBranchNameOf pr.headRef env.now := by
  simp only [repairFnBody] at hr
  repeat' split at hr
  all_goals (
    injection hr with h1 h2
    subst h1
    first
      | (simp [hw] at hmem; exact ⟨hmem, rfl⟩)
      | (exfalso; simp [hw] at hmem))

/-- C2: for every repair attempt (any oracle, pull request, and starting
world), the task always completes normally (errors of the body and of the
delete itself are swallowed); whenever a temporary branch name was
assigned, a remote deletion of that branch is attempted on the exit path;
and every branch that was pushed gets a deletion attempt for it. -/
theorem temp_branch_cleanup (env : MergeEnv) (pr : PullData) (w : World)
    (hw : w.trace = []) :
    ((runRepairTask env pr w).2 = Except.ok ()) ∧
    ((runRepairTask env pr w).1.tempBranchName ≠ "" →
      ExtAction.apiDeleteRef ("heads/" ++ (runRepairTask env pr w).1.tempBranchName) ∈
        (runRepairTask env pr w).1.trace) ∧
    (∀ b, ExtAction.pushBranch b ∈ (runRepairTask env pr w).1.trace →
      ExtAction.apiDeleteRef ("heads/" ++ b) ∈ (runRepairTask env pr w).1.trace) := by
  rcases hfn : repairFnBody env pr env.tmpDir
      { fs := env.tmpDir :: w.fs, remote := w.remote, trace := w.trace,
        tempBranchName := "" } with ⟨w2, res⟩
  have hpush : ∀ b, ExtAction.pushBranch b ∈ w2.trace →
      b = tempBranchNameOf pr.headRef env.now ∧
      w2.tempBranchName = tempBranchNameOf pr.headRef env.now :=
    fun b hb => repairFnBody_push_mem env pr env.tmpDir _ (by simpa using hw) b w2 res hfn hb
  have hmain : ∀ res2 : Except Err Unit,
      repairFnBody env pr env.tmpDir
        { fs := env.tmpDir :: w.fs, remote := w.remote, trace := w.trace,
          tempBranchName := "" } = (w2, res2) →
      ((runRepairTask env pr w).2 = Except.ok ()) ∧
      ((runRepairTask env pr w).1.tempBranchName ≠ "" →
        ExtAction.apiDeleteRef ("heads/" ++ (runRepairTask env pr w).1.tempBranchName) ∈
          (runRepairTask env pr w).1.trace) ∧
      (∀ b, ExtAction.pushBranch b ∈ (runRepairTask env pr w).1.trace →
        ExtAction.apiDeleteRef ("heads/" ++ b) ∈ (runRepairTask env pr w).1.trace) := by
    intro res2 hfn2
    cases res2 with
    | ok u =>
      simp only [runRepairTask, withTempDir, hfn2]
      by_cases htb : w2.tempBranchName = ""
      · simp only [htb, ne_eq, not_true_eq_false, if_neg, not_not, ite_false]
        refine ⟨by trivial, by simp, ?_⟩
        intro b hb
        exfalso
        rcases hpush b hb with ⟨-, hassign⟩
        exact tempBranchNameOf_ne_empty pr.headRef env.now (by rw [← hassign, htb])
      · rw [if_pos htb]
        cases hdel : env.deleteErr with
        | some e =>
          refine ⟨rfl, fun _ => by simp, ?_⟩
          intro b hb
          simp only [List.mem_append] at hb
          rcases hb with hb | hb
          · rcases hpush b hb with ⟨hbt, hassign⟩
            simp [hbt, hassign]
          · exfalso; simp at hb
        | none =>
          refine ⟨rfl, fun _ => by simp, ?_⟩
          intro b hb
          simp only [List.mem_append] at hb
          rcases hb with hb | hb
          · rcases hpush b hb with ⟨hbt, hassign⟩
            simp [hbt, hassign]
          · exfalso; simp at hb
    | error e =>
      simp only [runRepairTask, withTempDir, hfn2]
      by_cases htb : w2.tempBranchName = ""
      · simp only [htb, ne_eq, not_true_eq_false, if_neg, not_not, ite_false]
        refine ⟨by trivial, by simp, ?_⟩
        intro b hb
        exfalso
        rcases hpush b hb with ⟨-, hassign⟩
        exact tempBranchNameOf_ne_empty pr.headRef env.now (by rw [← hassign, htb])
      · rw [if_pos htb]
        cases hdel : env.deleteErr with
        | some e2 =>
          refine ⟨rfl, fun _ => by simp, ?_⟩
          intro b hb
          simp only [List.mem_append] at hb
          rcases hb with hb | hb
          · rcases hpush b hb with ⟨hbt, hassign⟩
            simp [hbt, hassign]
          · exfalso; simp at hb
        | none =>
          refine ⟨rfl, fun _ => by simp, ?_⟩
          intro b hb
          simp only [List.mem_append] at hb
          rcases hb with hb | hb
          · rcases hpush b hb with ⟨hbt, hassign⟩
            simp [hbt, hassign]
          · exfalso; simp at hb
  exact hmain res hfn

/-- C2 witness: the cleanup properties at the all-success oracle, concrete
pull request, and fresh world. -/
theorem temp_branch_cleanup_witness :
    ((runRepairTask envOkEx prDataEx wInitEx).2 = Except.ok ()) ∧
    ((runRepairTask envOkEx prDataEx wInitEx).1.tempBranchName ≠ "" →
      ExtAction.apiDeleteRef ("heads/" ++ (runRepairTask envOkEx prDataEx wInitEx).1.tempBranchName) ∈
        (runRepairTask envOkEx prDataEx wInitEx).1.trace) ∧
    (∀ b, ExtAction.pushBranch b ∈ (runRepairTask envOkEx prDataEx wInitEx).1.trace →
      ExtAction.apiDeleteRef ("heads/" ++ b) ∈ (runRepairTask envOkEx prDataEx wInitEx).1.trace) :=
  temp_branch_cleanup envOkEx prDataEx wInitEx rfl

/-- C4: if every step up to the local merge succeeds and the merge itself
fails (a conflict), the repair attempt ends normally without assigning a
temporary branch name, the remote (in particular the pull request's head
ref) is exactly as before, and the trace shows the attempt stopped at the
merge: no branch creation, no push, and no hosting-API write was ever
issued, and the merge was attempted exactly once (not retried). -/
theorem merge_conflict_aborts_cleanly (env : MergeEnv) (pr : PullData)
    (w : World) (tok : String)
    (htok : env.tokenRes = Except.ok tok) (hclone : env.cloneRes = Except.ok ())
    (hce : env.cfgEmailRes = Except.ok ()) (hcn : env.cfgNameRes = Except.ok ())
    (hcs : env.cfgSignRes = Except.ok ()) (hcb : env.checkoutBaseRes = Except.ok ())
    (hch : env.checkoutHeadRes = Except.ok ()) (e : Err)
    (hm : env.mergeRes = Except.error e) (hw : w.trace = []) :
    ((runRepairTask env pr w).2 = Except.ok ()) ∧
    ((runRepairTask env pr w).1.remote = w.remote) ∧
    ((runRepairTask env pr w).1.tempBranchName = "") ∧
    ((runRepairTask env pr w).1.trace =
      [ExtAction.mkdirp (env.tmpDir ++ "/clone"), ExtAction.rmLocal (env.tmpDir ++ "/clone"),
       ExtAction.mkdirp (env.tmpDir ++ "/clone"), ExtAction.getToken,
       ExtAction.clone (env.tmpDir ++ "/clone"),
       ExtAction.addConfig "user.email" "electron@github.com",
       ExtAction.addConfig "user.name" "Electron Bot",
       ExtAction.addConfig "commit.gpgsign" "false",
       ExtAction.checkout pr.baseRef, ExtAction.checkout pr.headRef,
       ExtAction.gitMerge pr.baseRef (mergeMessageOf pr.baseRef)]) := by
  refine ⟨?_, ?_, ?_, ?_⟩ <;>
    simp [runRepairTask, withTempDir, repairFnBody, htok, hclone, hce, hcn, hcs,
      hcb, hch, hm, hw]

/-- C4 witness: the theorem at the all-success oracle whose merge step
fails with a conflict. -/
theorem merge_conflict_aborts_cleanly_witness :
    ((runRepairTask { envOkEx with mergeRes := Except.error "CONFLICT" } prDataEx wInitEx).2 =
      Except.ok ()) ∧
    ((runRepairTask { envOkEx with mergeRes := Except.error "CONFLICT" } prDataEx wInitEx).1.remote =
      wInitEx.remote) ∧
    ((runRepairTask { envOkEx with mergeRes := Except.error "CONFLICT" } prDataEx wInitEx).1.tempBranchName = "") ∧
    ((runRepairTask { envOkEx with mergeRes := Except.error "CONFLICT" } prDataEx wInitEx).1.trace =
      [ExtAction.mkdirp ("/tmp/patch-merge-abc" ++ "/clone"), ExtAction.rmLocal ("/tmp/patch-merge-abc" ++ "/clone"),
       ExtAction.mkdirp ("/tmp/patch-merge-abc" ++ "/clone"), ExtAction.getToken,
       ExtAction.clone ("/tmp/patch-merge-abc" ++ "/clone"),
       ExtAction.addConfig "user.email" "electron@github.com",
       ExtAction.addConfig "user.name" "Electron Bot",
       ExtAction.addConfig "commit.gpgsign" "false",
       ExtAction.checkout prDataEx.baseRef, ExtAction.checkout prDataEx.headRef,
       ExtAction.gitMerge prDataEx.baseRef (mergeMessageOf prDataEx.baseRef)]) :=
  merge_conflict_aborts_cleanly { envOkEx with mergeRes := Except.error "CONFLICT" }
    prDataEx wInitEx "tok" rfl rfl rfl rfl rfl rfl rfl "CONFLICT" rfl rfl

/-- C10: any failure of the native merge subprocess is handled identically,
whatever the error value: the outcome of the repair task is literally the
same for any two merge errors (no distinction is recorded or surfaced),
the task completes normally (the error is caught and discarded), and no
remote state is mutated. -/
theorem merge_errors_handled_uniformly (env : MergeEnv) (pr : PullData)
    (w : World) (tok : String)
    (htok : env.tokenRes = Except.ok tok) (hclone : env.cloneRes = Except.ok ())
    (hce : env.cfgEmailRes = Except.ok ()) (hcn : env.cfgNameRes = Except.ok ())
    (hcs : env.cfgSignRes = Except.ok ()) (hcb : env.checkoutBaseRes = Except.ok ())
    (hch : env.checkoutHeadRes = Except.ok ()) (e1 e2 : Err) :
    (runRepairTask { env with mergeRes := Except.error e1 } pr w =
      runRepairTask { env with mergeRes := Except.error e2 } pr w) ∧
    ((runRepairTask { env with mergeRes := Except.error e1 } pr w).2 = Except.ok ()) ∧
    ((runRepairTask { env with mergeRes := Except.error e1 } pr w).1.remote = w.remote) := by
  refine ⟨?_, ?_, ?_⟩ <;>
    simp [runRepairTask, withTempDir, repairFnBody, htok, hclone, hce, hcn, hcs,
      hcb, hch]

/-- C10 witness: a conflict error and an unrelated subprocess error produce
the same outcome at the concrete oracle. -/
theorem merge_errors_handled_uniformly_witness :
    (runRepairTask { envOkEx with mergeRes := Except.error "CONFLICT" } prDataEx wInitEx =
      runRepairTask { envOkEx with mergeRes := Except.error "signal: killed" } prDataEx wInitEx) ∧
    ((runRepairTask { envOkEx with mergeRes := Except.error "CONFLICT" } prDataEx wInitEx).2 =
      Except.ok ()) ∧
    ((runRepairTask { envOkEx with mergeRes := Except.error "CONFLICT" } prDataEx wInitEx).1.remote =
      wInitEx.remote) :=
  merge_errors_handled_uniformly envOkEx prDataEx wInitEx "tok" rfl rfl rfl rfl rfl
    rfl rfl "CONFLICT" "signal: killed"

theorem startsList_append (pat rest : List Char) :
    startsList pat (pat ++ rest) = true := by
  induction pat with
  | nil => rfl
  | cons c cs ih => simp [startsList, ih]

theorem subList_eq_false (c : Char) (cs l : List Char) (hc : c ∉ l) :
    subList (c :: cs) l = false := by
  induction l with
  | nil => rfl
  | cons x xs ih =>
    have hcx : c ≠ x := by
      intro h
      exact hc (h ▸ List.mem_cons_self x xs)
    have hcxs : c ∉ xs := fun h => hc (List.mem_cons_of_mem x h)
    simp [subList, startsList, ih hcxs, hcx]

theorem marker_not_in_stripped (b : String) (hb : ('[' : Char) ∉ b.toList) :
    containsCiSkipMarker (stripCiSkip (mergeMessageOf b)) = false := by
  have hdata : (mergeMessageOf b).data =
      "[ci skip] ".data ++
        ("Merged in branch '".data ++ (b.data ++ "' to fix mergability".data)) := by
    have h1 : ("[ci skip] Merged in branch '" : String).data =
        "[ci skip] ".data ++ "Merged in branch '".data := rfl
    simp [mergeMessageOf, String.data_append, h1, List.append_assoc]
  have hstarts : startsList "[ci skip] ".toList (mergeMessageOf b).toList = true := by
    show startsList "[ci skip] ".data (mergeMessageOf b).data = true
    rw [hdata]
    exact startsList_append _ _
  have hnotin : ('[' : Char) ∉
      ("Merged in branch '".data ++ (b.data ++ "' to fix mergability".data)) := by
    intro hmem
    rcases List.mem_append.mp hmem with h | h
    · exact absurd h (by decide)
    · rcases List.mem_append.mp h with h2 | h2
      · exact hb h2
      · exact absurd h2 (by decide)
  have hdrop : (mergeMessageOf b).data.drop "[ci skip] ".length =
      "Merged in branch '".data ++ (b.data ++ "' to fix mergability".data) := by
    rw [hdata]
    rw [show ("[ci skip] " : String).length = ("[ci skip] ".data).length from rfl]
    exact List.drop_left _ _
  unfold containsCiSkipMarker stripCiSkip
  rw [hstarts]
  show subList "[ci skip]".data ((mergeMessageOf b).data.drop "[ci skip] ".length) = false
  rw [hdrop]
  rw [show ("[ci skip]" : String).data = '[' :: "ci skip]".data from rfl]
  exact subList_eq_false _ _ _ hnotin

/-- C1: when every step of a repair attempt succeeds, the commit created
through the hosting API reuses exactly the tree and the parent list of
the commit at the tip of the pushed temporary branch (the local merge
commit), its message is that commit's message with the CI-skip marker
stripped — and contains no CI-skip marker (given that the base branch
name, a valid git ref name, contains no open bracket) — and the pull
request's head branch ref ends up pointing at the newly created
commit. -/
theorem republish_success_reuses_tree_and_parents (env : MergeEnv)
    (pr : PullData) (w : World) (tok : String)
    (htok : env.tokenRes = Except.ok tok) (hclone : env.cloneRes = Except.ok ())
    (hce : env.cfgEmailRes = Except.ok ()) (hcn : env.cfgNameRes = Except.ok ())
    (hcs : env.cfgSignRes = Except.ok ()) (hcb : env.checkoutBaseRes = Except.ok ())
    (hch : env.checkoutHeadRes = Except.ok ()) (hm : env.mergeRes = Except.ok ())
    (hct : env.checkoutTempRes = Except.ok ()) (hp : env.pushRes = Except.ok ())
    (hgr : env.getRefErr = none) (hgc : env.getCommitErr = none)
    (hcr : env.createErr = none) (hur : env.updateErr = none)
    (hsha : env.newSha ≠ env.mergeSha)
    (hbase : ('[' : Char) ∉ pr.baseRef.toList) :
    ∃ tip newC : Commit,
      ExtAction.pushBranch (tempBranchNameOf pr.headRef env.now) ∈
        (runRepairTask env pr w).1.trace ∧
      findCommit (runRepairTask env pr w).1.remote.commits env.mergeSha = some tip ∧
      findCommit (runRepairTask env pr w).1.remote.commits env.newSha = some newC ∧
      newC.tree = tip.tree ∧
      newC.parents = tip.parents ∧
      newC.message = stripCiSkip tip.message ∧
      containsCiSkipMarker newC.message = false ∧
      ExtAction.apiCreateCommit newC.message newC.tree newC.parents ∈
        (runRepairTask env pr w).1.trace ∧
      ExtAction.apiUpdateRef ("heads/" ++ pr.headRef) env.newSha ∈
        (runRepairTask env pr w).1.trace ∧
      lookupRef (runRepairTask env pr w).1.remote.refs ("heads/" ++ pr.headRef) =
        some env.newSha := by
  have hne : ("heads/" ++ pr.headRef) ≠ ("heads/" ++ tempBranchNameOf pr.headRef env.now) :=
    heads_append_ne _ _ (Ne.symm (tempBranchNameOf_ne_headRef pr.headRef env.now))
  have hne2 : (("heads/" ++ pr.headRef) == ("heads/" ++ tempBranchNameOf pr.headRef env.now)) = false :=
    beq_eq_false_iff_ne.mpr hne
  have hsha2 : (env.newSha == env.mergeSha) = false := beq_eq_false_iff_ne.mpr hsha
  have htne := tempBranchNameOf_ne_empty pr.headRef env.now
  refine ⟨⟨env.mergeSha, mergeMessageOf pr.baseRef, env.mergeTree, env.mergeParents⟩,
    ⟨env.newSha, stripCiSkip (mergeMessageOf pr.baseRef), env.mergeTree, env.mergeParents⟩,
    ?_, ?_, ?_, rfl, rfl, rfl, marker_not_in_stripped pr.baseRef hbase, ?_, ?_, ?_⟩ <;>
    cases hdel : env.deleteErr <;>
      simp [runRepairTask, withTempDir, repairFnBody, Remote.dropRef, lookupRef,
        findCommit, htok, hclone, hce, hcn, hcs, hcb, hch, hm, hct, hp, hgr, hgc,
        hcr, hur, hdel, hne2, hsha2, htne, bne]

/-- C1 witness: the republish relationship at the all-success oracle with
base branch "main" and head branch "fix". -/
theorem republish_success_reuses_tree_and_parents_witness :
    ∃ tip newC : Commit,
      ExtAction.pushBranch (tempBranchNameOf prDataEx.headRef envOkEx.now) ∈
        (runRepairTask envOkEx prDataEx wInitEx).1.trace ∧
      findCommit (runRepairTask envOkEx prDataEx wInitEx).1.remote.commits envOkEx.mergeSha = some tip ∧
      findCommit (runRepairTask envOkEx prDataEx wInitEx).1.remote.commits envOkEx.newSha = some newC ∧
      newC.tree = tip.tree ∧
      newC.parents = tip.parents ∧
      newC.message = stripCiSkip tip.message ∧
      containsCiSkipMarker newC.message = false ∧
      ExtAction.apiCreateCommit newC.message newC.tree newC.parents ∈
        (runRepairTask envOkEx prDataEx wInitEx).1.trace ∧
      ExtAction.apiUpdateRef ("heads/" ++ prDataEx.headRef) envOkEx.newSha ∈
        (runRepairTask envOkEx prDataEx wInitEx).1.trace ∧
      lookupRef (runRepairTask envOkEx prDataEx wInitEx).1.remote.refs
        ("heads/" ++ prDataEx.headRef) = some envOkEx.newSha :=
  republish_success_reuses_tree_and_parents envOkEx prDataEx wInitEx "tok"
    rfl rfl rfl rfl rfl rfl rfl rfl rfl rfl rfl rfl rfl rfl
    (by decide) (by decide)
